import Mathlib

/-!
Shallow embedding of the distributed citation-graph crawler
(src/scripts/crawler.py) and proofs about its specified behaviour.

The embedding translates each Python function into a pure Lean function.
Wall-clock time is a rational number threaded explicitly; `time.sleep` and
`time.time()` become extra inputs constrained by hypotheses; network and
database responses become oracle functions supplied as arguments; side
effects (SQL statements, Redis commands, sleeps) become event lists.
-/

namespace Crawler

/-! ## Constants (crawler.py lines 35-45, 190) -/

def API_BATCH_LIMIT : Nat := 100
def MAX_REQUEST_ATTEMPTS : Nat := 5
def REF_PAGE_LIMIT : Nat := 99
def MAX_INSERT_RETRIES : Nat := 3
def MAX_MARK_RETRIES : Nat := 3
def INSERT_BACKOFF : ℚ := 1
def MAX_OFFSET : Nat := 9999

/-! ## Rate limiter (crawler.py lines 67-85)

`RateLimiter.acquire` reads the clock, evicts stale arrival timestamps,
sleeps when the window is full, re-reads the clock, evicts again, and
records the admitted call.  The two clock reads become the inputs `now1`
and `now2`; the duration actually slept is constrained by a hypothesis in
the theorems (`sleep_respected`). -/

/-- The eviction loop `while self.calls and self.calls[0] <= now - self.period:
self.calls.popleft()` (lines 76-77 and 81-82). -/
def evictOld (period now : ℚ) : List ℚ → List ℚ
  | [] => []
  | t :: rest => if t ≤ now - period then evictOld period now rest else t :: rest

/-- `RateLimiter.acquire` (lines 73-83): returns the updated deque of
arrival timestamps and the timestamp recorded for the admitted call.
`now1` is the first `time.time()` (line 75); `now2` is the second
`time.time()` (line 80), read only when the window was full and the
limiter slept. -/
def RateLimiter.acquire (maxCalls : Nat) (period : ℚ) (calls : List ℚ) (now1 now2 : ℚ) :
    List ℚ × ℚ :=
  let c1 := evictOld period now1 calls
  if maxCalls ≤ c1.length then
    (evictOld period now2 c1 ++ [now2], now2)
  else
    (c1 ++ [now1], now1)

/-- A sequence of `acquire` calls: each element of `steps` supplies the two
clock reads of one call; returns the admitted timestamps in order. -/
def acquireRun (maxCalls : Nat) (period : ℚ) : List ℚ → List (ℚ × ℚ) → List ℚ
  | _, [] => []
  | calls, (n1, n2) :: rest =>
    let r := RateLimiter.acquire maxCalls period calls n1 n2
    r.2 :: acquireRun maxCalls period r.1 rest

/-- The clock/sleep contract for a run: whenever a call finds the window
full (so line 79 executes `time.sleep(self.period - (now - self.calls[0]))`),
the second clock read is at least the first plus the requested sleep.
This is the only timing assumption; it encodes that `time.sleep(d)`
suspends for at least `d` seconds. -/
def sleep_respected (maxCalls : Nat) (period : ℚ) : List ℚ → List (ℚ × ℚ) → Prop
  | _, [] => True
  | calls, (n1, n2) :: rest =>
    (let c1 := evictOld period n1 calls
     maxCalls ≤ c1.length → n1 + (period - (n1 - c1.headI)) ≤ n2) ∧
    sleep_respected maxCalls period (RateLimiter.acquire maxCalls period calls n1 n2).1 rest

/-! ## Rate-limited HTTP client (crawler.py lines 87-107)

`send_request` is wrapped in a tenacity `retry` decorator with
`retry_if_exception_type(requests.RequestException)`,
`stop_after_attempt(5)`, `wait_exponential(multiplier=1, min=1, max=30)`
and `reraise=True`.  The body checks for 429/500 (honouring `Retry-After`),
then calls `resp.raise_for_status()`.

In the `requests` library, `HTTPError` — the exception raised by
`raise_for_status` — is a subclass of `RequestException`, so tenacity's
exception-type predicate matches it; the embedding records that class
hierarchy in `isRequestException`. -/

/-- The `Retry-After` header as the body observes it after
`int(retry_after)`: absent (`none`, which also covers the falsy empty
string at line 98), present and parsed by Python `int` (`parsed`), or
present but raising `ValueError` (`malformed`, line 103). -/
inductive RetryAfter
  | parsed (seconds : Int)
  | malformed
deriving DecidableEq, Repr

/-- One HTTP response as `send_request`'s body observes it. -/
structure HttpResponse where
  status : Nat
  retryAfter : Option RetryAfter
deriving DecidableEq, Repr

/-- Exceptions an attempt of `send_request` can raise. -/
inductive PyError
  /-- `requests.RequestException(f"API error {...}")` raised at line 105. -/
  | requestExc (status : Nat)
  /-- `requests.HTTPError` raised by `resp.raise_for_status()` (line 106).
  In the `requests` library this class is a subclass of `RequestException`. -/
  | httpStatusError (status : Nat)
deriving DecidableEq, Repr

/-- Whether an exception is an instance of `requests.RequestException`,
the class tenacity's `retry_if_exception_type` tests (line 88).
`HTTPError` subclasses `RequestException`, so both kinds match. -/
def isRequestException : PyError → Bool
  | .requestExc _ => true
  | .httpStatusError _ => true

/-- Side effects of one attempt of `send_request`'s body. -/
inductive HttpEv
  /-- `time.sleep(wait_time)` at line 102. -/
  | sleep (seconds : Int)
deriving DecidableEq, Repr

/-- `resp.raise_for_status()`: the `requests` library raises `HTTPError`
exactly for 4xx and 5xx status codes. -/
def raise_for_status (status : Nat) : Except PyError Unit :=
  if 400 ≤ status ∧ status < 600 then .error (.httpStatusError status) else .ok ()

/-- The result of one attempt: the sleeps it performed and either the
returned response's status or the exception raised. -/
structure AttemptResult where
  events : List HttpEv
  outcome : Except PyError Nat
deriving Repr

/-- The body of `send_request` (lines 93-107) for one response, after the
limiter acquisition and the HTTP round-trip: handle 429/500 with
`Retry-After`, then `raise_for_status`, else return the response. -/
def send_request_once (resp : HttpResponse) : AttemptResult :=
  if resp.status = 429 ∨ resp.status = 500 then
    match resp.retryAfter with
    | some (.parsed n) => ⟨[.sleep n], .error (.requestExc resp.status)⟩
    | some .malformed => ⟨[], .error (.requestExc resp.status)⟩
    | none => ⟨[], .error (.requestExc resp.status)⟩
  else
    match raise_for_status resp.status with
    | .error e => ⟨[], .error e⟩
    | .ok _ => ⟨[], .ok resp.status⟩

/-- tenacity's `wait_exponential(multiplier=1, min=1, max=30)`: the wait
before the retry following attempt number `attemptNumber` is
`multiplier * 2 ** attempt_number` clamped to `[min, max]`. -/
def wait_exponential (attemptNumber : Nat) : Nat :=
  max 1 (min (2 ^ attemptNumber) 30)

/-- The whole retried call: attempt count, backoff waits performed between
attempts, concatenated body side effects, and the final outcome. -/
structure RunResult where
  attempts : Nat
  waits : List Nat
  events : List HttpEv
  outcome : Except PyError Nat
deriving Repr

/-- tenacity's retry loop: `resps n` is the response the server gives to
attempt number `n`; `attempt` is the current 1-based attempt number and
`remaining` how many further attempts `stop_after_attempt` still allows.
An exception that is not a `RequestException` propagates at once; with
`reraise=True` the exception of the final attempt propagates unchanged. -/
def retry_run (resps : Nat → HttpResponse) (attempt : Nat) : Nat → RunResult
  | 0 =>
    let a := send_request_once (resps attempt)
    ⟨1, [], a.events, a.outcome⟩
  | r + 1 =>
    let a := send_request_once (resps attempt)
    match a.outcome with
    | .ok v => ⟨1, [], a.events, .ok v⟩
    | .error e =>
      if isRequestException e then
        let rest := retry_run resps (attempt + 1) r
        ⟨rest.attempts + 1, wait_exponential attempt :: rest.waits,
          a.events ++ rest.events, rest.outcome⟩
      else ⟨1, [], a.events, .error e⟩

/-- `send_request` under the decorator of lines 87-92:
`stop_after_attempt(MAX_REQUEST_ATTEMPTS)` allows 5 attempts in total. -/
def send_request (resps : Nat → HttpResponse) : RunResult :=
  retry_run resps 1 (MAX_REQUEST_ATTEMPTS - 1)

/-- Whether an attempt failed with an exception tenacity would retry. -/
def attemptRetryFails (a : AttemptResult) : Bool :=
  match a.outcome with
  | .error e => isRequestException e
  | .ok _ => false

/-! ## Reference pagination (crawler.py lines 189-222)

`fetch_pages` walks the per-paper references endpoint.  The embedding
abstracts the network: `resps o` is what the GET at offset `o` produces —
either a raised `requests.RequestException` (caught at line 204, `break`)
or a JSON body with its `data` list and `next` field.  Each issued request
is recorded with the `offset` and `limit` query parameters it carried, so
the theorems can speak about every request the routine issues.
The `shutdown_event` short-circuit (line 194) is modelled as never set; it
can only cut the loop short, issuing fewer requests. -/

/-- The response to one references GET. -/
inductive PageResp
  /-- `send_request` raised `requests.RequestException` after its retries. -/
  | failed
  /-- A JSON body: `data` holds each entry's `paperId` field (`none` when
  the key is missing), `next` holds the body's `next` field when that
  field is an `int` (the `isinstance` test at line 218), else `none`. -/
  | ok (data : List (Option String)) (next : Option Int)

/-- The query parameters of one issued references request (line 202). -/
structure RefRequest where
  offset : Nat
  limit : Nat
deriving DecidableEq, Repr

/-- The rows one page contributes (lines 212-215): each entry whose
`paperId` is present and truthy — Python's `if rid:` skips both `None`
and the empty string. -/
def pageRows (pid : String) (data : List (Option String)) : List (String × String) :=
  data.filterMap fun o =>
    match o with
    | some rid => if rid = "" then none else some (pid, rid)
    | none => none

/-- The pagination loop of `fetch_pages` (lines 192-221) from a given
offset: returns the collected rows and the list of issued requests. -/
def fetch_pages_loop (pid : String) (resps : Nat → PageResp) (total_refs : Int)
    (offset : Nat) : List (String × String) × List RefRequest :=
  if h : (offset : Int) < total_refs ∧ offset ≤ MAX_OFFSET then
    let req : RefRequest := ⟨offset, REF_PAGE_LIMIT⟩
    match resps offset with
    | .failed => ([], [req])
    | .ok data next =>
      if data.isEmpty then ([], [req])
      else
        let rows := pageRows pid data
        match next with
        | none => (rows, [req])
        | some nxt =>
          if h2 : nxt ≤ (offset : Int) ∨ (MAX_OFFSET : Int) < nxt then (rows, [req])
          else
            let rec_ := fetch_pages_loop pid resps total_refs nxt.toNat
            (rows ++ rec_.1, req :: rec_.2)
  else ([], [])
termination_by MAX_OFFSET + 1 - offset
decreasing_by
  simp only [not_or, not_le, not_lt] at h2
  omega

/-- `fetch_pages` (lines 189-222): the caller passes `start_offset` and the
paper's reported reference count. -/
def fetch_pages (pid : String) (start_offset : Nat) (total_refs : Int)
    (resps : Nat → PageResp) : String × List (String × String) :=
  (pid, (fetch_pages_loop pid resps total_refs start_offset).1)

/-- The relation between two consecutive issued requests: the earlier
response carried a non-empty `data` list and an integer `next` strictly
greater than the current offset and at most `MAX_OFFSET`, and the later
request starts exactly there. -/
def next_step (resps : Nat → PageResp) (r r2 : RefRequest) : Prop :=
  ∃ data nxt, resps r.offset = PageResp.ok data (some nxt) ∧
    data ≠ [] ∧ (r.offset : Int) < nxt ∧ nxt ≤ (MAX_OFFSET : Int) ∧
    r2.offset = nxt.toNat

/-! ## Batch writer (crawler.py lines 126-160)

`safe_insert_citations` and `mark_processed` are deadlock-retry loops
around bulk inserts.  The embedding records, in order, every
state-changing operation as an event; a deadlock oracle `dl` says whether
`execute_values` raises `psycopg2.errors.DeadlockDetected` on a given
attempt number.  An event list plus a success flag model the call: a
`false` flag means the final attempt re-raised the deadlock (`raise` at
lines 139/159), which the caller sees as an exception. -/

/-- State-changing operations of the batch writer, in program order. -/
inductive DbEv
  /-- `execute_values(cur, "INSERT INTO citations ... ON CONFLICT DO NOTHING", rows)`
  (lines 129-133). -/
  | insert_citations (rows : List (String × String))
  /-- `execute_values(cur, "INSERT INTO processed_papers ... ON CONFLICT DO NOTHING", rows)`
  (lines 148-152). -/
  | insert_processed (rows : List (String × List String))
  /-- `conn.commit()`. -/
  | commit
  /-- `conn.rollback()`. -/
  | rollback
  /-- `time.sleep(INSERT_BACKOFF * (2 ** (attempt - 1)))`. -/
  | backoffSleep (seconds : ℚ)
  /-- `r.execute_command("BF.MADD", BLOOM_NAME, *fos_map.keys())` (line 154). -/
  | bf_add_processed (ids : List String)
deriving DecidableEq, Repr

/-- The `for attempt in range(1, MAX_INSERT_RETRIES + 1)` loop of
`safe_insert_citations` (lines 127-140).  `remaining` counts how many
attempts are still allowed after the current one; on the final attempt a
deadlock is re-raised (success flag `false`) instead of slept on. -/
def insert_citations_attempts (dl : Nat → Bool) (rows : List (String × String)) :
    Nat → Nat → List DbEv × Bool
  | attempt, remaining =>
    if dl attempt then
      let evs := [DbEv.insert_citations rows, DbEv.rollback]
      match remaining with
      | 0 => (evs, false)
      | r + 1 =>
        let rest := insert_citations_attempts dl rows (attempt + 1) r
        (evs ++ DbEv.backoffSleep (INSERT_BACKOFF * 2 ^ (attempt - 1)) :: rest.1, rest.2)
    else ([DbEv.insert_citations rows, DbEv.commit], true)

/-- `safe_insert_citations(cur, conn, rows)` (lines 126-140). -/
def safe_insert_citations (dl : Nat → Bool) (rows : List (String × String)) :
    List DbEv × Bool :=
  insert_citations_attempts dl rows 1 (MAX_INSERT_RETRIES - 1)

/-- The retry loop of `mark_processed` (lines 145-160): insert the rows of
`fos_map`, commit, and only then union the paper IDs into `BF_processed`. -/
def mark_processed_attempts (dl : Nat → Bool) (fos_map : List (String × List String)) :
    Nat → Nat → List DbEv × Bool
  | attempt, remaining =>
    if dl attempt then
      let evs := [DbEv.insert_processed fos_map, DbEv.rollback]
      match remaining with
      | 0 => (evs, false)
      | r + 1 =>
        let rest := mark_processed_attempts dl fos_map (attempt + 1) r
        (evs ++ DbEv.backoffSleep (INSERT_BACKOFF * 2 ^ (attempt - 1)) :: rest.1, rest.2)
    else
      ([DbEv.insert_processed fos_map, DbEv.commit,
        DbEv.bf_add_processed (fos_map.map Prod.fst)], true)

/-- `mark_processed(cur, conn, fos_map)` (lines 142-160); an empty map
returns at once (line 143-144).  `fos_map` is the dict as an association
list in insertion order. -/
def mark_processed (dl : Nat → Bool) (fos_map : List (String × List String)) :
    List DbEv × Bool :=
  if fos_map.isEmpty then ([], true)
  else mark_processed_attempts dl fos_map 1 (MAX_MARK_RETRIES - 1)

/-- The write tail of one crawl-loop batch (lines 319-320):
`safe_insert_citations(cur, conn, ref_rows)` then
`mark_processed(cur, conn, fos_map)`.  If the first raises, the exception
propagates and `mark_processed` never runs. -/
def batch_write (dl1 dl2 : Nat → Bool) (ref_rows : List (String × String))
    (fos_map : List (String × List String)) : List DbEv :=
  let c := safe_insert_citations dl1 ref_rows
  if c.2 then c.1 ++ (mark_processed dl2 fos_map).1 else c.1

/-- `ON CONFLICT DO NOTHING` semantics of the citations bulk insert on a
table state: rows already present are silently ignored, new rows are
appended in order. -/
def apply_insert_citations (table : List (String × String))
    (rows : List (String × String)) : List (String × String) :=
  rows.foldl (fun t row => if row ∈ t then t else t ++ [row]) table

/-- "Some event satisfying `Q` occurs only after an event satisfying `P`
followed by a commit": for every position `j` holding a `Q`-event there
are earlier positions `k < i < j` with a `P`-event at `k` and a commit
at `i`. -/
def commitSeparates (t : List DbEv) (P Q : DbEv → Prop) : Prop :=
  ∀ j e, t.get? j = some e → Q e →
    ∃ k i e2, k < i ∧ i < j ∧ t.get? i = some DbEv.commit ∧
      t.get? k = some e2 ∧ P e2

/-! ## Dedup oracle (crawler.py lines 162-175)

`filter_new_ids` consults the processed bloom filter and falls back to the
`processed_papers` table.  The bloom filter's state is a membership
predicate `bloom : String → Bool` (`BF.MEXISTS` may report false
positives, so `bloom` need not match any add-history); the authoritative
table is the list of its `paper_id` keys.  Redis raises an error when a
`BF.MADD` command carries no item, which `bf_madd` reproduces. -/

/-- An error raised by a Redis command. -/
inductive RedisErr
  /-- "wrong number of arguments": `BF.MADD key` with no item. -/
  | wrongArity (cmd : String)
deriving DecidableEq, Repr

/-- `r.execute_command("BF.MADD", name, *keys)`: with no key the server
rejects the command; otherwise the filter now also contains `keys`. -/
def bf_madd (bloom : String → Bool) (keys : List String) :
    Except RedisErr (String → Bool) :=
  if keys.isEmpty then .error (.wrongArity "BF.MADD")
  else .ok fun s => bloom s || keys.contains s

/-- `filter_new_ids(cur, candidate_ids)` (lines 162-175): returns the
updated bloom state and the list of IDs deemed new, or the Redis error.
`table` is the set of `paper_id` values in `processed_papers`, queried by
the `= ANY(%s)` SELECT at line 169. -/
def filter_new_ids (bloom : String → Bool) (table : List String)
    (candidate_ids : List String) : Except RedisErr ((String → Bool) × List String) :=
  if candidate_ids.isEmpty then .ok (bloom, [])
  else
    let maybe_seen := candidate_ids.filter fun pid => bloom pid
    let new_ids := candidate_ids.filter fun pid => !bloom pid
    if maybe_seen.isEmpty then .ok (bloom, new_ids)
    else
      let seen := maybe_seen.filter fun pid => table.contains pid
      match bf_madd bloom seen with
      | .error e => .error e
      | .ok bloom2 =>
        .ok (bloom2, new_ids ++ maybe_seen.filter fun pid => !seen.contains pid)

/-! ## Lifecycle prologue and seeding (crawler.py lines 224-256, 345-352)

`main`'s prologue arbitrates fresh/resume mode and seeds the frontier.
The embedding records its state-changing operations as events and whether
control reaches the crawl loop.  `main` never calls `sys.exit`: when it
returns, the `__main__` block falls off the end and the process exits
with status 0. -/

/-- State-changing operations of `main`'s prologue, in program order. -/
inductive MainEv
  /-- `init_db(cur)` + commit (lines 229-234): `CREATE TABLE IF NOT
  EXISTS` / `CREATE INDEX IF NOT EXISTS` only — inserts no row. -/
  | createSchema
  /-- `reset_bloom_filters()` (line 237). -/
  | resetFilters
  /-- `cur.execute("TRUNCATE processed_papers, citations;")` (line 240). -/
  | truncateTables
  /-- `r.execute_command("BF.MADD", QUEUE_BLOOM_NAME, *seeds)` (line 253);
  the returned per-ID flags are discarded. -/
  | bfAddQueued (ids : List String)
  /-- `r.rpush(REDIS_QUEUE, *entries)` (line 255). -/
  | pushFrontier (entries : List String)
deriving DecidableEq, Repr

/-- How `main` left the prologue. -/
inductive MainOutcome
  /-- `main` returned before the crawl loop (the `return` at line 249);
  the process then exits with status 0. -/
  | returned
  /-- Control reached the crawl loop at line 259. -/
  | crawlLoop
deriving DecidableEq, Repr

/-- `json.dumps({"id": pid})` for a plain identifier string (line 254). -/
def envelope (pid : String) : String :=
  "\x7b\"id\": \"" ++ pid ++ "\"\x7d"

/-- The seeding block `if fresh and seeds:` (lines 252-256): add all seeds
to the queued bloom filter and push one envelope per seed — the `BF.MADD`
flags are not consulted, so duplicates in `seeds` are each pushed. -/
def seed_frontier (seeds : List String) : List MainEv :=
  if seeds.isEmpty then []
  else [MainEv.bfAddQueued seeds, MainEv.pushFrontier (seeds.map envelope)]

/-- `main`'s prologue (lines 228-256): schema bootstrap, then the
fresh/resume arbitration, then seeding.  `queueLength` is
`r.llen(REDIS_QUEUE)` (line 246). -/
def main_prologue (fresh resume : Bool) (queueLength : Nat) (seeds : List String) :
    List MainEv × MainOutcome :=
  if fresh then
    ([MainEv.createSchema, MainEv.resetFilters, MainEv.truncateTables] ++
       seed_frontier seeds, MainOutcome.crawlLoop)
  else if resume && decide (queueLength = 0) then
    ([MainEv.createSchema], MainOutcome.returned)
  else
    ([MainEv.createSchema], MainOutcome.crawlLoop)

/-- The process exit status once `main` has finished: `main` returning
normally (including the early `return` of the resume-with-empty-frontier
branch) ends the script with status 0; `none` stands for runs that only
end on a signal or an exception. -/
def exit_status : MainOutcome → Option Nat
  | .returned => some 0
  | .crawlLoop => none

/-- The frontier entries pushed by a list of prologue events. -/
def pushed_entries : List MainEv → List String
  | [] => []
  | MainEv.pushFrontier es :: rest => es ++ pushed_entries rest
  | _ :: rest => pushed_entries rest

/-! # Theorems -/

/-! ## Dedup oracle: the empty `BF.MADD` corner (claims C2, C10)

When every bloom-flagged candidate is absent from the authoritative table,
`seen` is empty and line 171 executes `BF.MADD processed_bloom` with no
key, which Redis rejects, so `filter_new_ids` raises instead of returning
the candidates as unprocessed.  The bloom state below contains the
candidate while the table does not — exactly the state a bloom false
positive (or any superset state) produces, so the claimed superset
assumption `table keys ⊆ bloom` holds. -/

/-- C10: a non-empty candidate list whose every bloom-flagged ID is absent
from the processed-papers table makes `filter_new_ids` invoke `BF.MADD`
with an empty key set, raising an error instead of returning those IDs as
unprocessed. -/
theorem filter_new_ids_empty_madd_error :
    filter_new_ids (fun s => s == "A") [] ["A"] = .error (.wrongArity "BF.MADD") := rfl

/-- C2: evaluation at the failing input.  With the bloom a superset of the
(empty) table keyset and candidate list `["B"]` flagged by the bloom,
`filter_new_ids` raises the `BF.MADD` arity error instead of returning
`["B"]`, the subset of the input absent from the table. -/
theorem filter_new_ids_superset_state_crash :
    filter_new_ids (fun s => s == "B") [] ["B"] = .error (.wrongArity "BF.MADD") ∧
    filter_new_ids (fun s => s == "B") [] ["B"] ≠ .ok ((fun s => s == "B"), ["B"]) := by
  exact ⟨rfl, by simp [filter_new_ids, bf_madd]⟩

/-! ## Lifecycle: resume with an empty frontier (claim C6) -/

/-- C6: evaluation at the failing input.  Started in resume mode with
frontier length 0, `main` performs only the schema bootstrap (no row
writes) and returns from the `return` at line 249; the process then ends
with exit status 0, not the nonzero status the claim requires. -/
theorem resume_empty_frontier_exit_zero :
    main_prologue false true 0 [] = ([MainEv.createSchema], MainOutcome.returned) ∧
    exit_status (main_prologue false true 0 []).2 = some 0 := by decide

/-! ## Seeding does not deduplicate (claim C8) -/

/-- C8 counterexample: a fresh run with seeds `["P1", "P1"]` pushes the
envelope of `P1` onto the frontier twice, not once. -/
theorem seed_frontier_duplicate_pushed_twice :
    (pushed_entries (main_prologue true false 0 ["P1", "P1"]).1).count (envelope "P1")
      = 2 := by decide

/-- C8 amended: in a fresh run every seed occurrence is pushed onto the
frontier, duplicates included — the seeding block executes `BF.MADD` on
the queued bloom filter but never consults its per-ID results. -/
theorem seed_frontier_pushes_every_occurrence (seeds : List String) (queueLength : Nat) :
    pushed_entries (main_prologue true false queueLength seeds).1 = seeds.map envelope := by
  by_cases h : seeds.isEmpty
  · rw [List.isEmpty_iff] at h
    subst h
    rfl
  · simp [main_prologue, seed_frontier, h, pushed_entries]

/-! ## HTTP client retry policy (claims C3, C7) -/

theorem attemptRetryFails_iff (a : AttemptResult) :
    attemptRetryFails a = true ↔
      ∃ e, a.outcome = Except.error e ∧ isRequestException e = true := by
  cases h : a.outcome with
  | ok v => simp [attemptRetryFails, h]
  | error e => simp [attemptRetryFails, h]

theorem wait_exponential_bounds (n : Nat) :
    1 ≤ wait_exponential n ∧ wait_exponential n ≤ 30 :=
  ⟨le_max_left _ _, max_le (by norm_num) (min_le_right _ _)⟩

theorem retry_run_attempts_le (resps : Nat → HttpResponse) :
    ∀ r attempt, (retry_run resps attempt r).attempts ≤ r + 1 := by
  intro r
  induction r with
  | zero => intro attempt; simp [retry_run]
  | succ r ih =>
    intro attempt
    simp only [retry_run]
    cases h : (send_request_once (resps attempt)).outcome with
    | ok v => simp
    | error e =>
      by_cases hr : isRequestException e
      · simpa [hr] using Nat.succ_le_succ (ih (attempt + 1))
      · simp [hr]
      -- the non-retryable branch stops at one attempt

theorem retry_run_waits_bounded (resps : Nat → HttpResponse) :
    ∀ r attempt w, w ∈ (retry_run resps attempt r).waits → 1 ≤ w ∧ w ≤ 30 := by
  intro r
  induction r with
  | zero => intro attempt w hw; simp [retry_run] at hw
  | succ r ih =>
    intro attempt w hw
    simp only [retry_run] at hw
    cases h : (send_request_once (resps attempt)).outcome with
    | ok v => rw [h] at hw; simp at hw
    | error e =>
      rw [h] at hw
      by_cases hr : isRequestException e
      · simp only [hr, if_true, List.mem_cons] at hw
        rcases hw with rfl | hw
        · exact wait_exponential_bounds attempt
        · exact ih (attempt + 1) w hw
      · simp [hr] at hw

/-- When every attempt fails with a retryable exception, the loop performs
every allowed attempt, waits `wait_exponential` of each completed attempt
number between them, and surfaces the final attempt's exception. -/
theorem retry_run_all_fail (resps : Nat → HttpResponse)
    (hfail : ∀ k, attemptRetryFails (send_request_once (resps k)) = true) :
    ∀ r attempt,
      (retry_run resps attempt r).attempts = r + 1 ∧
      (retry_run resps attempt r).waits =
        (List.range' attempt r).map wait_exponential ∧
      (retry_run resps attempt r).outcome =
        (send_request_once (resps (attempt + r))).outcome := by
  intro r
  induction r with
  | zero => intro attempt; simp [retry_run]
  | succ r ih =>
    intro attempt
    obtain ⟨e, he, hre⟩ := (attemptRetryFails_iff _).mp (hfail attempt)
    have hrec := ih (attempt + 1)
    simp only [retry_run, he, hre, if_true]
    refine ⟨by simp [hrec.1], ?_, ?_⟩
    · rw [hrec.2.1, List.range'_succ, List.map_cons]
    · rw [hrec.2.2]
      have harith : attempt + 1 + r = attempt + (r + 1) := by omega
      rw [harith]

/-- C3 counterexample: against a server that always answers 429 with no
`Retry-After`, `send_request` performs exactly five attempts — there is no
sixth failure; the fifth failure surfaces, after backoff waits of
2, 4, 8 and 16 seconds. -/
theorem send_request_stops_at_fifth_failure :
    (send_request fun _ => ⟨429, none⟩).attempts = 5 ∧
    (send_request fun _ => ⟨429, none⟩).outcome = .error (.requestExc 429) ∧
    (send_request fun _ => ⟨429, none⟩).waits = [2, 4, 8, 16] :=
  ⟨rfl, rfl, rfl⟩

/-- C3 amended: on status 429 or 500 the body sleeps the parsed
`Retry-After` seconds before raising the retryable error and raises
immediately when the header is absent or unparseable; a retryable error is
retried up to 5 total attempts with exponential backoff clamped to
[1s, 30s]; when every attempt fails the waits are
`wait_exponential 1..4 = [2, 4, 8, 16]` and the fifth failure surfaces to
the caller. -/
theorem send_request_retry_policy (resps : Nat → HttpResponse) :
    (∀ resp : HttpResponse, ∀ n : Int, (resp.status = 429 ∨ resp.status = 500) →
      resp.retryAfter = some (.parsed n) →
      send_request_once resp = ⟨[.sleep n], .error (.requestExc resp.status)⟩) ∧
    (∀ resp : HttpResponse, (resp.status = 429 ∨ resp.status = 500) →
      (resp.retryAfter = some .malformed ∨ resp.retryAfter = none) →
      send_request_once resp = ⟨[], .error (.requestExc resp.status)⟩) ∧
    (send_request resps).attempts ≤ 5 ∧
    (∀ w ∈ (send_request resps).waits, 1 ≤ w ∧ w ≤ 30) ∧
    ((∀ k, attemptRetryFails (send_request_once (resps k)) = true) →
      (send_request resps).attempts = 5 ∧
      (send_request resps).outcome = (send_request_once (resps 5)).outcome ∧
      (send_request resps).waits =
        [wait_exponential 1, wait_exponential 2, wait_exponential 3, wait_exponential 4]) := by
  refine ⟨?_, ?_, ?_, ?_, ?_⟩
  · intro resp n h429 hra
    simp [send_request_once, h429, hra]
  · intro resp h429 hra
    rcases hra with hra | hra <;> simp [send_request_once, h429, hra]
  · exact retry_run_attempts_le resps 4 1
  · exact fun w hw => retry_run_waits_bounded resps 4 1 w hw
  · intro hfail
    obtain ⟨h1, h2, h3⟩ := retry_run_all_fail resps hfail 4 1
    have hsr : send_request resps = retry_run resps 1 4 := rfl
    rw [hsr, h1, h2, h3]
    refine ⟨rfl, rfl, rfl⟩

/-- C7 counterexample: a status-404 response raises `HTTPError`, which is
a `RequestException` subclass, so far from surfacing on the first
occurrence the request is reattempted: five attempts happen and the fifth
failure surfaces. -/
theorem send_request_404_reattempted :
    (send_request fun _ => ⟨404, none⟩).attempts = 5 ∧
    (send_request fun _ => ⟨404, none⟩).outcome = .error (.httpStatusError 404) ∧
    isRequestException (.httpStatusError 404) = true :=
  ⟨rfl, rfl, rfl⟩

/-- C7 amended: a response whose status is in 4xx/5xx but is neither 429
nor 500 makes `raise_for_status` raise an HTTP status error; that error is
an instance of the retryable `RequestException` class, so the request is
reattempted like a 429/500 — up to 5 total attempts, the fifth failure
surfacing to the caller.  (Non-2xx statuses below 400 raise nothing.) -/
theorem send_request_other_error_retried (resps : Nat → HttpResponse) :
    (∀ resp : HttpResponse, 400 ≤ resp.status → resp.status < 600 →
      resp.status ≠ 429 → resp.status ≠ 500 →
      send_request_once resp = ⟨[], .error (.httpStatusError resp.status)⟩ ∧
      isRequestException (.httpStatusError resp.status) = true) ∧
    ((∀ k, 400 ≤ (resps k).status ∧ (resps k).status < 600 ∧
        (resps k).status ≠ 429 ∧ (resps k).status ≠ 500 ∧ (resps k).retryAfter = none) →
      (send_request resps).attempts = 5 ∧
      (send_request resps).outcome = .error (.httpStatusError (resps 5).status)) := by
  have once : ∀ resp : HttpResponse, 400 ≤ resp.status → resp.status < 600 →
      resp.status ≠ 429 → resp.status ≠ 500 →
      send_request_once resp = ⟨[], .error (.httpStatusError resp.status)⟩ := by
    intro resp h4 h6 hn429 hn500
    simp [send_request_once, hn429, hn500, raise_for_status, h4, h6]
  refine ⟨fun resp h4 h6 hn429 hn500 => ⟨once resp h4 h6 hn429 hn500, rfl⟩, ?_⟩
  intro hall
  have hfail : ∀ k, attemptRetryFails (send_request_once (resps k)) = true := by
    intro k
    obtain ⟨h4, h6, hn429, hn500, _⟩ := hall k
    rw [once (resps k) h4 h6 hn429 hn500]
    rfl
  obtain ⟨h1, h2, h3⟩ := retry_run_all_fail resps hfail 4 1
  obtain ⟨h4, h6, hn429, hn500, _⟩ := hall 5
  have hsr : send_request resps = retry_run resps 1 4 := rfl
  rw [hsr, h1, h3, once (resps 5) h4 h6 hn429 hn500]
  exact ⟨rfl, rfl⟩

/-! ## Pagination protocol (claim C4) -/

/-- The protocol triple for a loop invocation that issues exactly one
request at `offset` and stops. -/
theorem protocol_singleton (resps : Nat → PageResp) (offset : Nat)
    (hoff : offset ≤ MAX_OFFSET) :
    (∀ req ∈ [RefRequest.mk offset REF_PAGE_LIMIT],
        req.offset ≤ MAX_OFFSET ∧ req.limit = REF_PAGE_LIMIT) ∧
    List.Chain' (next_step resps) [RefRequest.mk offset REF_PAGE_LIMIT] ∧
    (∀ r rest, [RefRequest.mk offset REF_PAGE_LIMIT] = r :: rest →
        r = ⟨offset, REF_PAGE_LIMIT⟩) := by
  refine ⟨?_, List.chain'_singleton _, ?_⟩
  · intro req hreq
    simp only [List.mem_singleton] at hreq
    subst hreq
    exact ⟨hoff, rfl⟩
  · intro r rest hr
    simp only [List.cons.injEq] at hr
    exact hr.1.symm

/-- The pagination loop, from any offset: every issued request stays at or
below the offset ceiling with page size 99; consecutive requests are
linked by `next_step`; and the first request (when any) is issued at the
entry offset.  `m` bounds the measure for the induction. -/
theorem fetch_pages_loop_protocol (pid : String) (resps : Nat → PageResp) (total_refs : Int) :
    ∀ m offset, MAX_OFFSET + 1 - offset ≤ m →
      (∀ req ∈ (fetch_pages_loop pid resps total_refs offset).2,
          req.offset ≤ MAX_OFFSET ∧ req.limit = REF_PAGE_LIMIT) ∧
      List.Chain' (next_step resps) (fetch_pages_loop pid resps total_refs offset).2 ∧
      (∀ r rest, (fetch_pages_loop pid resps total_refs offset).2 = r :: rest →
          r = ⟨offset, REF_PAGE_LIMIT⟩) := by
  intro m
  induction m with
  | zero =>
    intro offset hm
    have hg : ¬((offset : Int) < total_refs ∧ offset ≤ MAX_OFFSET) := by
      rw [MAX_OFFSET] at hm ⊢
      intro hc
      omega
    rw [fetch_pages_loop.eq_def, dif_neg hg]
    exact ⟨by simp, by simp, by simp⟩
  | succ m ih =>
    intro offset hm
    rw [fetch_pages_loop.eq_def]
    by_cases hg : (offset : Int) < total_refs ∧ offset ≤ MAX_OFFSET
    · rw [dif_pos hg]
      cases hresp : resps offset with
      | failed => exact protocol_singleton resps offset hg.2
      | ok data next =>
        dsimp only
        by_cases hdata : data.isEmpty
        · rw [if_pos hdata]
          exact protocol_singleton resps offset hg.2
        · rw [if_neg hdata]
          cases next with
          | none => exact protocol_singleton resps offset hg.2
          | some nxt =>
            dsimp only
            by_cases h2 : nxt ≤ (offset : Int) ∨ (MAX_OFFSET : Int) < nxt
            · rw [dif_pos h2]
              exact protocol_singleton resps offset hg.2
            · rw [dif_neg h2]
              push_neg at h2
              have hle : nxt.toNat ≤ MAX_OFFSET := by
                rw [MAX_OFFSET] at h2 ⊢
                omega
              have hmeas : MAX_OFFSET + 1 - nxt.toNat ≤ m := by
                rw [MAX_OFFSET] at hm hle h2 ⊢
                omega
              obtain ⟨ihb, ihc, ihh⟩ := ih nxt.toNat hmeas
              refine ⟨?_, ?_, ?_⟩
              · intro req hreq
                simp only [List.mem_cons] at hreq
                rcases hreq with rfl | hreq
                · exact ⟨hg.2, rfl⟩
                · exact ihb req hreq
              · show List.Chain' (next_step resps)
                  (⟨offset, REF_PAGE_LIMIT⟩ :: (fetch_pages_loop pid resps total_refs nxt.toNat).2)
                cases hrest : (fetch_pages_loop pid resps total_refs nxt.toNat).2 with
                | nil => simp
                | cons b tail =>
                  rw [List.chain'_cons]
                  refine ⟨?_, by rw [← hrest]; exact ihc⟩
                  have hb := ihh b tail hrest
                  subst hb
                  refine ⟨data, nxt, hresp, ?_, ?_, h2.2, rfl⟩
                  · intro hnil
                    rw [hnil] at hdata
                    exact hdata rfl
                  · exact_mod_cast h2.1
              · intro r rest hr
                simp only [List.cons.injEq] at hr
                exact hr.1.symm
    · rw [dif_neg hg]
      exact ⟨by simp, by simp, by simp⟩

/-- C4: `fetch_pages` never issues a references request whose offset
exceeds 9999 and always requests pages of size 99, and it proceeds from
one request to the next only when the earlier response carried a
non-empty `data` list and a `next` field that is an integer strictly
greater than the current offset and at most 9999 — terminating in every
other case. -/
theorem fetch_pages_request_protocol (pid : String) (start_offset : Nat)
    (total_refs : Int) (resps : Nat → PageResp) :
    (∀ req ∈ (fetch_pages_loop pid resps total_refs start_offset).2,
        req.offset ≤ MAX_OFFSET ∧ req.limit = REF_PAGE_LIMIT) ∧
    List.Chain' (next_step resps) (fetch_pages_loop pid resps total_refs start_offset).2 ∧
    (fetch_pages pid start_offset total_refs resps).2 =
      (fetch_pages_loop pid resps total_refs start_offset).1 := by
  obtain ⟨h1, h2, _⟩ := fetch_pages_loop_protocol pid resps total_refs
    (MAX_OFFSET + 1) start_offset (Nat.sub_le _ _)
  exact ⟨h1, h2, rfl⟩

/-! ## Batch writer structure (claims C1, C9) -/

/-- Shape of the citations retry loop: on success the trace ends with the
bulk insert followed by its commit, preceded only by failed-attempt
events; on failure every event is a failed-attempt event (insert,
rollback or backoff sleep) — in particular no commit and no
processed-papers event ever appears. -/
theorem insert_citations_attempts_shape (dl : Nat → Bool) (rows : List (String × String)) :
    ∀ r attempt,
      ((insert_citations_attempts dl rows attempt r).2 = true →
        ∃ pre, (insert_citations_attempts dl rows attempt r).1 =
            pre ++ [DbEv.insert_citations rows, DbEv.commit] ∧
          ∀ e ∈ pre, e = DbEv.insert_citations rows ∨ e = DbEv.rollback ∨
            ∃ q, e = DbEv.backoffSleep q) ∧
      ((insert_citations_attempts dl rows attempt r).2 = false →
        ∀ e ∈ (insert_citations_attempts dl rows attempt r).1,
          e = DbEv.insert_citations rows ∨ e = DbEv.rollback ∨
            ∃ q, e = DbEv.backoffSleep q) := by
  intro r
  induction r with
  | zero =>
    intro attempt
    have heq : insert_citations_attempts dl rows attempt 0 =
        if dl attempt then ([DbEv.insert_citations rows, DbEv.rollback], false)
        else ([DbEv.insert_citations rows, DbEv.commit], true) := rfl
    rw [heq]
    by_cases hd : dl attempt
    · rw [if_pos hd]
      refine ⟨by simp, ?_⟩
      intro _ e he
      simp only [List.mem_cons, List.not_mem_nil, or_false] at he
      rcases he with rfl | rfl
      · exact Or.inl rfl
      · exact Or.inr (Or.inl rfl)
    · rw [if_neg hd]
      refine ⟨fun _ => ⟨[], rfl, by simp⟩, by simp⟩
  | succ r ih =>
    intro attempt
    have heq : insert_citations_attempts dl rows attempt (r + 1) =
        if dl attempt then
          ([DbEv.insert_citations rows, DbEv.rollback] ++
            DbEv.backoffSleep (INSERT_BACKOFF * 2 ^ (attempt - 1)) ::
              (insert_citations_attempts dl rows (attempt + 1) r).1,
           (insert_citations_attempts dl rows (attempt + 1) r).2)
        else ([DbEv.insert_citations rows, DbEv.commit], true) := rfl
    rw [heq]
    by_cases hd : dl attempt
    · rw [if_pos hd]
      obtain ⟨ihT, ihF⟩ := ih (attempt + 1)
      constructor
      · intro hok
        obtain ⟨pre, hpre, hchar⟩ := ihT hok
        refine ⟨[DbEv.insert_citations rows, DbEv.rollback,
            DbEv.backoffSleep (INSERT_BACKOFF * 2 ^ (attempt - 1))] ++ pre, ?_, ?_⟩
        · rw [hpre]
          simp
        · intro e he
          simp only [List.mem_append, List.mem_cons, List.not_mem_nil, or_false] at he
          rcases he with (rfl | rfl | rfl) | he
          · exact Or.inl rfl
          · exact Or.inr (Or.inl rfl)
          · exact Or.inr (Or.inr ⟨_, rfl⟩)
          · exact hchar e he
      · intro hfail e he
        simp only [List.mem_append, List.mem_cons, List.not_mem_nil, or_false] at he
        rcases he with (rfl | rfl) | rfl | he
        · exact Or.inl rfl
        · exact Or.inr (Or.inl rfl)
        · exact Or.inr (Or.inr ⟨_, rfl⟩)
        · exact ihF hfail e he
    · rw [if_neg hd]
      refine ⟨fun _ => ⟨[], rfl, by simp⟩, by simp⟩

/-- Shape of the processed-marks retry loop: on success the trace ends
with the bulk insert, its commit, then the `BF.MADD` union of the paper
IDs into `BF_processed`, preceded only by failed-attempt events; on
failure every event is a failed-attempt event — no commit and no
`BF.MADD` ever appears. -/
theorem mark_processed_attempts_shape (dl : Nat → Bool) (fos_map : List (String × List String)) :
    ∀ r attempt,
      ((mark_processed_attempts dl fos_map attempt r).2 = true →
        ∃ pre, (mark_processed_attempts dl fos_map attempt r).1 =
            pre ++ [DbEv.insert_processed fos_map, DbEv.commit,
              DbEv.bf_add_processed (fos_map.map Prod.fst)] ∧
          ∀ e ∈ pre, e = DbEv.insert_processed fos_map ∨ e = DbEv.rollback ∨
            ∃ q, e = DbEv.backoffSleep q) ∧
      ((mark_processed_attempts dl fos_map attempt r).2 = false →
        ∀ e ∈ (mark_processed_attempts dl fos_map attempt r).1,
          e = DbEv.insert_processed fos_map ∨ e = DbEv.rollback ∨
            ∃ q, e = DbEv.backoffSleep q) := by
  intro r
  induction r with
  | zero =>
    intro attempt
    have heq : mark_processed_attempts dl fos_map attempt 0 =
        if dl attempt then ([DbEv.insert_processed fos_map, DbEv.rollback], false)
        else ([DbEv.insert_processed fos_map, DbEv.commit,
          DbEv.bf_add_processed (fos_map.map Prod.fst)], true) := rfl
    rw [heq]
    by_cases hd : dl attempt
    · rw [if_pos hd]
      refine ⟨by simp, ?_⟩
      intro _ e he
      simp only [List.mem_cons, List.not_mem_nil, or_false] at he
      rcases he with rfl | rfl
      · exact Or.inl rfl
      · exact Or.inr (Or.inl rfl)
    · rw [if_neg hd]
      refine ⟨fun _ => ⟨[], rfl, by simp⟩, by simp⟩
  | succ r ih =>
    intro attempt
    have heq : mark_processed_attempts dl fos_map attempt (r + 1) =
        if dl attempt then
          ([DbEv.insert_processed fos_map, DbEv.rollback] ++
            DbEv.backoffSleep (INSERT_BACKOFF * 2 ^ (attempt - 1)) ::
              (mark_processed_attempts dl fos_map (attempt + 1) r).1,
           (mark_processed_attempts dl fos_map (attempt + 1) r).2)
        else ([DbEv.insert_processed fos_map, DbEv.commit,
          DbEv.bf_add_processed (fos_map.map Prod.fst)], true) := rfl
    rw [heq]
    by_cases hd : dl attempt
    · rw [if_pos hd]
      obtain ⟨ihT, ihF⟩ := ih (attempt + 1)
      constructor
      · intro hok
        obtain ⟨pre, hpre, hchar⟩ := ihT hok
        refine ⟨[DbEv.insert_processed fos_map, DbEv.rollback,
            DbEv.backoffSleep (INSERT_BACKOFF * 2 ^ (attempt - 1))] ++ pre, ?_, ?_⟩
        · rw [hpre]
          simp
        · intro e he
          simp only [List.mem_append, List.mem_cons, List.not_mem_nil, or_false] at he
          rcases he with (rfl | rfl | rfl) | he
          · exact Or.inl rfl
          · exact Or.inr (Or.inl rfl)
          · exact Or.inr (Or.inr ⟨_, rfl⟩)
          · exact hchar e he
      · intro hfail e he
        simp only [List.mem_append, List.mem_cons, List.not_mem_nil, or_false] at he
        rcases he with (rfl | rfl) | rfl | he
        · exact Or.inl rfl
        · exact Or.inr (Or.inl rfl)
        · exact Or.inr (Or.inr ⟨_, rfl⟩)
        · exact ihF hfail e he
    · rw [if_neg hd]
      refine ⟨fun _ => ⟨[], rfl, by simp⟩, by simp⟩

/-- A trace with no `Q`-event vacuously satisfies `commitSeparates`. -/
theorem commitSeparates_of_no_Q (t : List DbEv) (P Q : DbEv → Prop)
    (h : ∀ e ∈ t, ¬ Q e) : commitSeparates t P Q := by
  intro j e hj hQ
  exact absurd hQ (h e (List.get?_mem hj))

/-- A trace of the form `pre ++ [p, commit] ++ tail` whose prefix through
the commit holds no `Q`-event satisfies `commitSeparates`: any `Q`-event
lies in `tail`, after the `P`-event `p` and its commit. -/
theorem commitSeparates_shape (pre tail : List DbEv) (p : DbEv) (P Q : DbEv → Prop)
    (hP : P p) (hnoQ : ∀ e ∈ pre ++ [p, DbEv.commit], ¬ Q e) :
    commitSeparates ((pre ++ [p, DbEv.commit]) ++ tail) P Q := by
  intro j e hj hQ
  have hlen : (pre ++ [p, DbEv.commit]).length = pre.length + 2 := by simp
  have hj2 : (pre ++ [p, DbEv.commit]).length ≤ j := by
    by_contra hlt
    push_neg at hlt
    rw [List.get?_append hlt] at hj
    exact hnoQ e (List.get?_mem hj) hQ
  refine ⟨pre.length, pre.length + 1, p, Nat.lt_succ_self _, by omega, ?_, ?_, hP⟩
  · rw [List.append_assoc, List.get?_append_right (by omega)]
    have h1 : pre.length + 1 - pre.length = 1 := by omega
    rw [h1]
    rfl
  · rw [List.append_assoc, List.get?_append_right (le_refl pre.length)]
    have h0 : pre.length - pre.length = 0 := by omega
    rw [h0]
    rfl

/-- C1: within every crawl-loop batch, the citation rows are bulk-inserted
and committed before any processed-paper row is inserted, and the batch's
paper IDs are unioned into `BF_processed` only after the processed-paper
insert commits — never before.  Stated over the event trace of the batch
tail for arbitrary deadlock behaviour of either retry loop. -/
theorem batch_write_citations_first (dl1 dl2 : Nat → Bool)
    (ref_rows : List (String × String)) (fos_map : List (String × List String)) :
    commitSeparates (batch_write dl1 dl2 ref_rows fos_map)
      (fun e => e = DbEv.insert_citations ref_rows)
      (fun e => ∃ rws, e = DbEv.insert_processed rws) ∧
    commitSeparates (batch_write dl1 dl2 ref_rows fos_map)
      (fun e => e = DbEv.insert_processed fos_map)
      (fun e => ∃ ids, e = DbEv.bf_add_processed ids) := by
  obtain ⟨citT, citF⟩ :=
    insert_citations_attempts_shape dl1 ref_rows (MAX_INSERT_RETRIES - 1) 1
  have hsc : safe_insert_citations dl1 ref_rows =
      insert_citations_attempts dl1 ref_rows 1 (MAX_INSERT_RETRIES - 1) := rfl
  rw [← hsc] at citT citF
  have hbw : batch_write dl1 dl2 ref_rows fos_map =
      if (safe_insert_citations dl1 ref_rows).2 then
        (safe_insert_citations dl1 ref_rows).1 ++ (mark_processed dl2 fos_map).1
      else (safe_insert_citations dl1 ref_rows).1 := rfl
  by_cases hok : (safe_insert_citations dl1 ref_rows).2
  · obtain ⟨pre1, hpre1, hchar1⟩ := citT hok
    -- every event of the citations trace: insert/rollback/sleep/commit only
    have hc1 : ∀ e ∈ (safe_insert_citations dl1 ref_rows).1,
        e = DbEv.insert_citations ref_rows ∨ e = DbEv.rollback ∨
          (∃ q, e = DbEv.backoffSleep q) ∨ e = DbEv.commit := by
      intro e he
      rw [hpre1] at he
      simp only [List.mem_append, List.mem_cons, List.not_mem_nil, or_false] at he
      rcases he with he | rfl | rfl
      · rcases hchar1 e he with h | h | h
        · exact Or.inl h
        · exact Or.inr (Or.inl h)
        · exact Or.inr (Or.inr (Or.inl h))
      · exact Or.inl rfl
      · exact Or.inr (Or.inr (Or.inr rfl))
    rw [hbw, if_pos hok]
    constructor
    · -- citations insert+commit precede any processed insert
      rw [hpre1]
      exact commitSeparates_shape pre1 (mark_processed dl2 fos_map).1
        (DbEv.insert_citations ref_rows) _ _ rfl
        (by
          intro e he hex
          rw [← hpre1] at he
          rcases hc1 e he with rfl | rfl | ⟨q, rfl⟩ | rfl <;>
            exact absurd hex (by simp))
    · -- the BF.MADD follows the processed insert's commit
      by_cases hfos : fos_map.isEmpty
      · have hmark : (mark_processed dl2 fos_map).1 = [] := by
          rw [mark_processed, if_pos hfos]
        rw [hmark, List.append_nil]
        refine commitSeparates_of_no_Q _ _ _ ?_
        intro e he hex
        rcases hc1 e he with rfl | rfl | ⟨q, rfl⟩ | rfl <;>
          exact absurd hex (by simp)
      · have hmark : mark_processed dl2 fos_map =
            mark_processed_attempts dl2 fos_map 1 (MAX_MARK_RETRIES - 1) := by
          rw [mark_processed, if_neg hfos]
        obtain ⟨mkT, mkF⟩ :=
          mark_processed_attempts_shape dl2 fos_map (MAX_MARK_RETRIES - 1) 1
        by_cases hmok : (mark_processed_attempts dl2 fos_map 1 (MAX_MARK_RETRIES - 1)).2
        · obtain ⟨pre2, hpre2, hchar2⟩ := mkT hmok
          have hsplit : (safe_insert_citations dl1 ref_rows).1 ++ (mark_processed dl2 fos_map).1 =
              (((safe_insert_citations dl1 ref_rows).1 ++ pre2) ++
                [DbEv.insert_processed fos_map, DbEv.commit]) ++
                [DbEv.bf_add_processed (fos_map.map Prod.fst)] := by
            rw [hmark, hpre2]
            simp
          rw [hsplit]
          refine commitSeparates_shape _ _ _ _ _ rfl ?_
          intro e he hex
          simp only [List.mem_append, List.mem_cons, List.not_mem_nil, or_false] at he
          rcases he with (he | he) | rfl | rfl
          · rcases hc1 e he with rfl | rfl | ⟨q, rfl⟩ | rfl <;>
              exact absurd hex (by simp)
          · rcases hchar2 e he with rfl | rfl | ⟨q, rfl⟩ <;>
              exact absurd hex (by simp)
          · exact absurd hex (by simp)
          · exact absurd hex (by simp)
        · have hmf : (mark_processed_attempts dl2 fos_map 1 (MAX_MARK_RETRIES - 1)).2 = false :=
            Bool.not_eq_true _ ▸ (by simpa using hmok)
          refine commitSeparates_of_no_Q _ _ _ ?_
          intro e he hex
          simp only [List.mem_append] at he
          rcases he with he | he
          · rcases hc1 e he with rfl | rfl | ⟨q, rfl⟩ | rfl <;>
              exact absurd hex (by simp)
          · rw [hmark] at he
            rcases mkF hmf e he with rfl | rfl | ⟨q, rfl⟩ <;>
              exact absurd hex (by simp)
  · have hfail : (safe_insert_citations dl1 ref_rows).2 = false := by
      simpa using hok
    rw [hbw, if_neg hok]
    constructor <;>
    · refine commitSeparates_of_no_Q _ _ _ ?_
      intro e he hex
      rcases citF hfail e he with rfl | rfl | ⟨q, rfl⟩ <;>
        exact absurd hex (by simp)

/-- Membership after an `ON CONFLICT DO NOTHING` bulk insert: a row is in
the resulting table iff it was already there or is among the inserted
rows. -/
theorem mem_apply_insert_citations (rows : List (String × String)) :
    ∀ (table : List (String × String)) (a : String × String),
      a ∈ apply_insert_citations table rows ↔ a ∈ table ∨ a ∈ rows := by
  induction rows with
  | nil =>
    intro table a
    simp [apply_insert_citations]
  | cons r rs ih =>
    intro table a
    have hstep : apply_insert_citations table (r :: rs) =
        apply_insert_citations (if r ∈ table then table else table ++ [r]) rs := rfl
    rw [hstep, ih]
    by_cases hr : r ∈ table
    · rw [if_pos hr]
      constructor
      · rintro (h | h)
        · exact Or.inl h
        · exact Or.inr (List.mem_cons_of_mem r h)
      · rintro (h | h)
        · exact Or.inl h
        · rcases List.mem_cons.mp h with rfl | h
          · exact Or.inl hr
          · exact Or.inr h
    · rw [if_neg hr]
      constructor
      · rintro (h | h)
        · rcases List.mem_append.mp h with h | h
          · exact Or.inl h
          · simp only [List.mem_singleton] at h
            exact Or.inr (h ▸ List.mem_cons_self r rs)
        · exact Or.inr (List.mem_cons_of_mem r h)
      · rintro (h | h)
        · exact Or.inl (List.mem_append_left _ h)
        · rcases List.mem_cons.mp h with rfl | h
          · exact Or.inl (List.mem_append_right _ (List.mem_singleton_self a))
          · exact Or.inr h

/-- Inserting rows that are all already present changes nothing. -/
theorem apply_insert_citations_noop (rows : List (String × String)) :
    ∀ table, (∀ a ∈ rows, a ∈ table) → apply_insert_citations table rows = table := by
  induction rows with
  | nil => intro table _; rfl
  | cons r rs ih =>
    intro table h
    have hstep : apply_insert_citations table (r :: rs) =
        apply_insert_citations (if r ∈ table then table else table ++ [r]) rs := rfl
    rw [hstep, if_pos (h r (List.mem_cons_self r rs))]
    exact ih table fun a ha => h a (List.mem_cons_of_mem r ha)

/-- C9 counterexample: with every attempt deadlocking, the loop performs
exactly three bulk-insert attempts, sleeps only 1s and 2s between them —
a 4-second backoff never happens — and the third deadlock surfaces
(success flag `false`). -/
theorem safe_insert_citations_no_4s_backoff :
    (safe_insert_citations (fun _ => true) [("a", "b")]).2 = false ∧
    ((safe_insert_citations (fun _ => true) [("a", "b")]).1.count
        (DbEv.insert_citations [("a", "b")])) = 3 ∧
    DbEv.backoffSleep 4 ∉ (safe_insert_citations (fun _ => true) [("a", "b")]).1 ∧
    DbEv.backoffSleep 1 ∈ (safe_insert_citations (fun _ => true) [("a", "b")]).1 ∧
    DbEv.backoffSleep 2 ∈ (safe_insert_citations (fun _ => true) [("a", "b")]).1 := by
  have htr : safe_insert_citations (fun _ => true) [("a", "b")] =
      ([DbEv.insert_citations [("a", "b")], DbEv.rollback,
        DbEv.backoffSleep (INSERT_BACKOFF * 2 ^ (1 - 1)),
        DbEv.insert_citations [("a", "b")], DbEv.rollback,
        DbEv.backoffSleep (INSERT_BACKOFF * 2 ^ (2 - 1)),
        DbEv.insert_citations [("a", "b")], DbEv.rollback], false) := rfl
  have hq1 : INSERT_BACKOFF * 2 ^ (1 - 1) = (1 : ℚ) := by norm_num [INSERT_BACKOFF]
  have hq2 : INSERT_BACKOFF * 2 ^ (2 - 1) = (2 : ℚ) := by norm_num [INSERT_BACKOFF]
  rw [htr, hq1, hq2]
  refine ⟨rfl, rfl, ?_, by simp, by simp⟩
  decide

/-- C9 amended: `safe_insert_citations` bulk-inserts with
`ON CONFLICT DO NOTHING` semantics (re-inserting already-present rows is a
no-op); on deadlock it rolls back and retries up to 3 total attempts with
backoff sleeps of 1s then 2s between attempts, and the third consecutive
deadlock surfaces to the caller. -/
theorem safe_insert_citations_retry_policy (dl : Nat → Bool)
    (rows table : List (String × String)) :
    safe_insert_citations dl rows =
      (if dl 1 = false then
        ([DbEv.insert_citations rows, DbEv.commit], true)
      else if dl 2 = false then
        ([DbEv.insert_citations rows, DbEv.rollback, DbEv.backoffSleep 1,
          DbEv.insert_citations rows, DbEv.commit], true)
      else if dl 3 = false then
        ([DbEv.insert_citations rows, DbEv.rollback, DbEv.backoffSleep 1,
          DbEv.insert_citations rows, DbEv.rollback, DbEv.backoffSleep 2,
          DbEv.insert_citations rows, DbEv.commit], true)
      else
        ([DbEv.insert_citations rows, DbEv.rollback, DbEv.backoffSleep 1,
          DbEv.insert_citations rows, DbEv.rollback, DbEv.backoffSleep 2,
          DbEv.insert_citations rows, DbEv.rollback], false)) ∧
    apply_insert_citations (apply_insert_citations table rows) rows =
      apply_insert_citations table rows := by
  constructor
  · have e3 : insert_citations_attempts dl rows 3 0 =
        if dl 3 then ([DbEv.insert_citations rows, DbEv.rollback], false)
        else ([DbEv.insert_citations rows, DbEv.commit], true) := rfl
    have e2 : insert_citations_attempts dl rows 2 1 =
        if dl 2 then
          ([DbEv.insert_citations rows, DbEv.rollback] ++
            DbEv.backoffSleep (INSERT_BACKOFF * 2 ^ (2 - 1)) ::
              (insert_citations_attempts dl rows 3 0).1,
           (insert_citations_attempts dl rows 3 0).2)
        else ([DbEv.insert_citations rows, DbEv.commit], true) := rfl
    have e1 : safe_insert_citations dl rows =
        if dl 1 then
          ([DbEv.insert_citations rows, DbEv.rollback] ++
            DbEv.backoffSleep (INSERT_BACKOFF * 2 ^ (1 - 1)) ::
              (insert_citations_attempts dl rows 2 1).1,
           (insert_citations_attempts dl rows 2 1).2)
        else ([DbEv.insert_citations rows, DbEv.commit], true) := rfl
    have hq1 : INSERT_BACKOFF * 2 ^ (1 - 1) = (1 : ℚ) := by norm_num [INSERT_BACKOFF]
    have hq2 : INSERT_BACKOFF * 2 ^ (2 - 1) = (2 : ℚ) := by norm_num [INSERT_BACKOFF]
    rw [e1, e2, e3, hq1, hq2]
    cases hd1 : dl 1 <;> cases hd2 : dl 2 <;> cases hd3 : dl 3 <;> simp
  · exact apply_insert_citations_noop rows _
      fun a ha => (mem_apply_insert_citations rows table a).mpr (Or.inr ha)

/-! ## Rate limiter (claim C5) -/

/-- From a state holding one admitted timestamp `t`, every later admitted
call is at least `period` after its predecessor (and the first at least
`period` after `t`), provided sleeps behave as `time.sleep` promises. -/
theorem acquireRun_chain_from (period : ℚ) :
    ∀ (steps : List (ℚ × ℚ)) (t : ℚ), sleep_respected 1 period [t] steps →
      List.Chain' (fun x y => x + period ≤ y) (t :: acquireRun 1 period [t] steps) := by
  intro steps
  induction steps with
  | nil =>
    intro t _
    simp [acquireRun]
  | cons s rest ih =>
    obtain ⟨n1, n2⟩ := s
    intro t hsr
    obtain ⟨hsleep, htail⟩ := hsr
    by_cases hev : t ≤ n1 - period
    · have hc1 : evictOld period n1 [t] = [] := by
        simp only [evictOld, if_pos hev]
      have hacq : RateLimiter.acquire 1 period [t] n1 n2 = ([n1], n1) := by
        simp [RateLimiter.acquire, hc1]
      have hrun : acquireRun 1 period [t] ((n1, n2) :: rest) =
          n1 :: acquireRun 1 period [n1] rest := by
        simp [acquireRun, hacq]
      rw [hrun]
      rw [List.chain'_cons]
      refine ⟨by linarith, ?_⟩
      rw [hacq] at htail
      exact ih n1 htail
    · have hc1 : evictOld period n1 [t] = [t] := by
        simp only [evictOld, if_neg hev]
      have hs2 : t + period ≤ n2 := by
        have := hsleep (by rw [hc1]; simp)
        rw [hc1] at this
        simp only [List.headI] at this
        linarith
      have hev2 : t ≤ n2 - period := by linarith
      have hacq : RateLimiter.acquire 1 period [t] n1 n2 = ([n2], n2) := by
        simp only [RateLimiter.acquire, hc1, List.length_singleton, le_refl, if_pos]
        simp [evictOld, if_pos hev2]
      have hrun : acquireRun 1 period [t] ((n1, n2) :: rest) =
          n2 :: acquireRun 1 period [n2] rest := by
        simp [acquireRun, hacq]
      rw [hrun]
      rw [List.chain'_cons]
      refine ⟨hs2, ?_⟩
      rw [hacq] at htail
      exact ih n2 htail

/-- A chain with gaps of at least one is pairwise. -/
theorem chain_gap_pairwise :
    ∀ l : List ℚ, List.Chain' (fun x y => x + 1 ≤ y) l →
      l.Pairwise fun x y => x + 1 ≤ y := by
  have htrans : Transitive fun x y : ℚ => x + 1 ≤ y := by
    intro x y z hxy hyz
    linarith
  intro l hl
  exact (@List.chain'_iff_pairwise ℚ (fun x y => x + 1 ≤ y)
    ⟨fun a b c hab hbc => htrans hab hbc⟩ l).mp hl

/-- C5: for every sequence of `acquire` calls on the rate limiter with
`max_calls = 1` and `period = 1.0`, assuming each `time.sleep` suspends
for at least the requested duration, at most one call is admitted within
any rolling one-second window `[s, s + 1)`. -/
theorem rate_limiter_window_bound (steps : List (ℚ × ℚ))
    (h : sleep_respected 1 1 [] steps) (s : ℚ) :
    ((acquireRun 1 1 [] steps).filter fun x => decide (s ≤ x ∧ x < s + 1)).length ≤ 1 := by
  have hchain : List.Chain' (fun x y => x + 1 ≤ y) (acquireRun 1 1 [] steps) := by
    cases steps with
    | nil => simp [acquireRun]
    | cons s0 rest =>
      obtain ⟨n1, n2⟩ := s0
      obtain ⟨_, htail⟩ := h
      have hacq : RateLimiter.acquire 1 1 [] n1 n2 = ([n1], n1) := by
        simp [RateLimiter.acquire, evictOld]
      have hrun : acquireRun 1 1 [] ((n1, n2) :: rest) =
          n1 :: acquireRun 1 1 [n1] rest := by
        simp [acquireRun, hacq]
      rw [hrun]
      rw [hacq] at htail
      exact acquireRun_chain_from 1 rest n1 htail
  have hpw : ((acquireRun 1 1 [] steps).filter
      (fun x => decide (s ≤ x ∧ x < s + 1))).Pairwise (fun x y => x + 1 ≤ y) :=
    (chain_gap_pairwise _ hchain).sublist (List.filter_sublist _)
  cases hf : (acquireRun 1 1 [] steps).filter
      (fun x => decide (s ≤ x ∧ x < s + 1)) with
  | nil => simp
  | cons a tl =>
    cases tl with
    | nil => simp
    | cons b tl2 =>
      exfalso
      rw [hf] at hpw
      have hab : a + 1 ≤ b := (List.pairwise_cons.mp hpw).1 b (List.mem_cons_self b tl2)
      have ha : a ∈ (acquireRun 1 1 [] steps).filter
          (fun x => decide (s ≤ x ∧ x < s + 1)) := by
        rw [hf]; exact List.mem_cons_self a _
      have hb : b ∈ (acquireRun 1 1 [] steps).filter
          (fun x => decide (s ≤ x ∧ x < s + 1)) := by
        rw [hf]; exact List.mem_cons_of_mem a (List.mem_cons_self b tl2)
      have hpa : s ≤ a ∧ a < s + 1 := by
        have := (List.mem_filter.mp ha).2
        exact of_decide_eq_true this
      have hpb : s ≤ b ∧ b < s + 1 := by
        have := (List.mem_filter.mp hb).2
        exact of_decide_eq_true this
      linarith [hpa.1, hpa.2, hpb.1, hpb.2]

/-- Witness for C5 at a concrete trace: two calls, the second arriving
half a second after the first and slept until one second has passed;
the window starting at 0 admits only the first. -/
theorem rate_limiter_window_bound_witness :
    ((acquireRun 1 1 [] [(0, 0), (1/2, 1)]).filter fun x =>
        decide ((0 : ℚ) ≤ x ∧ x < 0 + 1)).length ≤ 1 := by
  refine rate_limiter_window_bound [(0, 0), (1/2, 1)] ⟨?_, ?_⟩ 0
  · exact fun hc => absurd hc (by decide)
  · rw [show RateLimiter.acquire 1 1 [] (0 : ℚ) 0 = ([0], 0) from by
      simp [RateLimiter.acquire, evictOld]]
    refine ⟨?_, trivial⟩
    show 1 ≤ (evictOld 1 (1/2) [(0 : ℚ)]).length →
      (1 : ℚ)/2 + (1 - (1/2 - (evictOld 1 (1/2) [(0 : ℚ)]).headI)) ≤ 1
    rw [show evictOld 1 (1/2) [(0 : ℚ)] = [0] from by norm_num [evictOld]]
    intro _
    simp only [List.headI]
    norm_num

end Crawler
